import Mathlib

/-!
Verification of the LanguageBridge browser extension's core logic
(sentence segmentation, translation client with cache, and the
sequential audio-playback controller), as a shallow embedding of the
TypeScript source in `src/content/toolbar.ts` and
`src/content/azure-client.ts`.
-/

/-! ## Sentence segmenter (`splitIntoSentences`, toolbar.ts)

The source is:
```
private splitIntoSentences(text: string): string[] {
  const sentenceRegex = /[^.!?؟؛۔¿]+[.!?؟؛۔¿]+/g;
  const sentences = text.match(sentenceRegex) || [text];
  return sentences.map((s) => s.trim()).filter((s) => s.length > 0);
}
```
The global regex finds, left to right, maximal runs of the shape
"one or more non-terminator characters followed by one or more
terminator characters".  Leading terminator characters can start no
match and are skipped; text after the last terminator that contains no
further terminator produces no match and is dropped.
-/

/-- The terminator character class of the source regex `[.!?؟؛۔¿]`.
Note that it contains `¿`. -/
def termChars : List Char := ['.', '!', '?', '؟', '؛', '۔', '¿']

/-- Membership in the regex character class `[.!?؟؛۔¿]`. -/
def isTerm (c : Char) : Bool := termChars.contains c

/-- Whitespace predicate used to model JavaScript `String.prototype.trim`. -/
def isWS (c : Char) : Bool := c.isWhitespace

/-- Drop leading whitespace (front half of `trim`). -/
def trimL (cs : List Char) : List Char := cs.dropWhile isWS

/-- Drop trailing whitespace (back half of `trim`). -/
def trimR (cs : List Char) : List Char := (trimL cs.reverse).reverse

/-- Model of JavaScript `s.trim()` on the character list of `s`. -/
def trimChars (cs : List Char) : List Char := trimR (trimL cs)

/-- Model of JavaScript `s.trim()` on strings. -/
def trimStr (s : String) : String := String.mk (trimChars s.data)

/-- One step of the regex scan: `cur` is the reversed current partial
match (which, at call sites reached from `chunks`, always starts with a
non-terminator character at its bottom).  A match is emitted when the
current partial match already ends in a terminator and the next
character is a non-terminator; a final partial match is kept only when
it ends in a terminator. -/
def chunksGo : List Char → List Char → List (List Char)
  | [], cur => if (cur.head?.map isTerm).getD false then [cur.reverse] else []
  | c :: rest, cur =>
    if isTerm c then chunksGo rest (c :: cur)
    else if (cur.head?.map isTerm).getD false then cur.reverse :: chunksGo rest [c]
    else chunksGo rest (c :: cur)

/-- All matches of the regex `/[^.!?؟؛۔¿]+[.!?؟؛۔¿]+/g` on `cs`, in
order. -/
def chunks (cs : List Char) : List (List Char) := chunksGo (cs.dropWhile isTerm) []

/-- `splitIntoSentences` on character lists: the regex matches (or the
whole input when there is no match), each trimmed, empty results
filtered out. -/
def splitIntoSentencesL (cs : List Char) : List (List Char) :=
  ((match chunks cs with
    | [] => [cs]
    | ms => ms).map trimChars).filter (fun l => l ≠ [])

/-- Model of `splitIntoSentences` from `toolbar.ts`. -/
def splitIntoSentences (text : String) : List String :=
  (splitIntoSentencesL text.data).map String.mk

example : splitIntoSentences "Hello. How are you?" = ["Hello.", "How are you?"] := by decide
example : splitIntoSentences "Hello" = ["Hello"] := by decide
example : splitIntoSentences " " = [] := by decide
example : splitIntoSentences "a¿b." = ["a¿", "b."] := by decide
example : splitIntoSentences "Hello. World" = ["Hello."] := by decide
example : splitIntoSentences ". . ." = [".", "."] := by decide
example : splitIntoSentences "Hi!! Ok." = ["Hi!!", "Ok."] := by decide

/-! ## Segmenter lemmas -/

/-- Dropping a prefix satisfying `p` twice is the same as dropping it once. -/
theorem dropWhile_dropWhile (p : Char → Bool) (l : List Char) :
    (l.dropWhile p).dropWhile p = l.dropWhile p := by
  induction l with
  | nil => rfl
  | cons c t ih =>
    by_cases h : p c = true
    · simp [List.dropWhile_cons, h, ih]
    · simp [List.dropWhile_cons, h]

/-- The head of `dropWhile p l`, when it exists, does not satisfy `p`. -/
theorem head_dropWhile_false (p : Char → Bool) (l : List Char) :
    ∀ c t, l.dropWhile p = c :: t → p c = false := by
  induction l with
  | nil => intro c t h; simp at h
  | cons a l ih =>
    intro c t h
    by_cases ha : p a = true
    · rw [List.dropWhile_cons, if_pos ha] at h
      exact ih c t h
    · rw [List.dropWhile_cons, if_neg ha] at h
      cases h
      exact Bool.eq_false_iff.mpr ha

/-- If the head of `l` does not satisfy `p`, `dropWhile p` keeps `l`. -/
theorem dropWhile_eq_self_of_head (p : Char → Bool) (l : List Char)
    (h : ∀ c t, l = c :: t → p c = false) : l.dropWhile p = l := by
  cases l with
  | nil => rfl
  | cons c t =>
    rw [List.dropWhile_cons, if_neg]
    simp [h c t rfl]

/-- `trimL` is idempotent. -/
theorem trimL_trimL (l : List Char) : trimL (trimL l) = trimL l :=
  dropWhile_dropWhile isWS l

/-- `trimR` is idempotent. -/
theorem trimR_trimR (l : List Char) : trimR (trimR l) = trimR l := by
  unfold trimR
  rw [List.reverse_reverse, trimL_trimL]

/-- `trimR` preserves the property of having a non-whitespace head. -/
theorem trimL_trimR_of_head (l : List Char)
    (h : ∀ c t, l = c :: t → isWS c = false) : trimL (trimR l) = trimR l := by
  cases l with
  | nil => rfl
  | cons c t =>
    have hc : isWS c = false := h c t rfl
    unfold trimR trimL
    rw [List.reverse_cons, List.dropWhile_append]
    by_cases he : (t.reverse.dropWhile isWS).isEmpty = true
    · rw [if_pos he]
      simp [List.dropWhile_cons, hc]
    · rw [if_neg he]
      simp [List.reverse_append, List.dropWhile_cons, hc]

/-- Trimming is idempotent. -/
theorem trimChars_trimChars (l : List Char) : trimChars (trimChars l) = trimChars l := by
  unfold trimChars
  rw [trimL_trimR_of_head (trimL l) (fun c t h => head_dropWhile_false isWS l c t h),
    trimR_trimR]

/-- If no element of `l` satisfies `p`, `dropWhile p` keeps `l`. -/
theorem dropWhile_eq_self_of_all (p : Char → Bool) (l : List Char)
    (h : ∀ c ∈ l, p c = false) : l.dropWhile p = l :=
  dropWhile_eq_self_of_head p l (fun c t hct => h c (by rw [hct]; simp))

/-- On terminator-free input, a scan whose partial match does not yet end
in a terminator emits nothing. -/
theorem chunksGo_eq_nil (ds : List Char) :
    (∀ c ∈ ds, isTerm c = false) → ∀ cur : List Char,
      (cur.head?.map isTerm).getD false = false → chunksGo ds cur = [] := by
  induction ds with
  | nil => intro _ cur hcur; simp [chunksGo, hcur]
  | cons d rest ih =>
    intro hds cur hcur
    have hd : isTerm d = false := hds d (List.mem_cons_self d rest)
    simp only [chunksGo]
    rw [if_neg (by simp [hd]), if_neg (by simp [hcur])]
    exact ih (fun c hc => hds c (List.mem_cons_of_mem d hc)) (d :: cur) (by simp [hd])

/-- Appending terminator-free text does not change the matches the scan
emits: the appended tail can only extend the final, never-emitted
partial match. -/
theorem chunksGo_append (ds : List Char) (hds : ∀ c ∈ ds, isTerm c = false) :
    ∀ (xs cur : List Char), chunksGo (xs ++ ds) cur = chunksGo xs cur := by
  intro xs
  induction xs with
  | nil =>
    intro cur
    simp only [List.nil_append]
    by_cases hcur : (cur.head?.map isTerm).getD false = true
    · cases ds with
      | nil => rfl
      | cons d rest =>
        have hd : isTerm d = false := hds d (List.mem_cons_self d rest)
        simp only [chunksGo]
        rw [if_neg (by simp [hd]), if_pos hcur, if_pos hcur,
          chunksGo_eq_nil rest (fun c hc => hds c (List.mem_cons_of_mem d hc)) [d]
            (by simp [hd])]
    · have hcur' : (cur.head?.map isTerm).getD false = false := by
        simpa using hcur
      rw [chunksGo_eq_nil ds hds cur hcur']
      simp [chunksGo, hcur']
  | cons x xs ih =>
    intro cur
    simp only [List.cons_append, chunksGo]
    by_cases hx : isTerm x = true
    · rw [if_pos hx, if_pos hx]; exact ih _
    · rw [if_neg hx, if_neg hx]
      by_cases hcur : (cur.head?.map isTerm).getD false = true
      · rw [if_pos hcur, if_pos hcur]
        exact congrArg (cur.reverse :: ·) (ih [x])
      · rw [if_neg hcur, if_neg hcur]; exact ih _

/-- Appending terminator-free text to any input leaves the match list
unchanged: the regex drops trailing unterminated text. -/
theorem chunks_append (cs ds : List Char) (hds : ∀ c ∈ ds, isTerm c = false) :
    chunks (cs ++ ds) = chunks cs := by
  unfold chunks
  rw [List.dropWhile_append]
  by_cases he : (cs.dropWhile isTerm).isEmpty = true
  · rw [if_pos he]
    rw [List.isEmpty_iff] at he
    rw [he, dropWhile_eq_self_of_all isTerm ds hds,
      chunksGo_eq_nil ds hds [] (by simp)]
    rfl
  · rw [if_neg he]
    exact chunksGo_append ds hds _ []

/-- A terminator-free input produces no regex match at all. -/
theorem chunks_eq_nil_of_noTerm (cs : List Char) (h : ∀ c ∈ cs, isTerm c = false) :
    chunks cs = [] := by
  unfold chunks
  rw [dropWhile_eq_self_of_all isTerm cs h]
  exact chunksGo_eq_nil cs h [] (by simp)

/-- On terminator-free input the segmenter falls back to the whole
trimmed input (dropped when blank). -/
theorem split_noTerm (text : String) (h : ∀ c ∈ text.data, isTerm c = false) :
    splitIntoSentences text = if trimStr text = "" then [] else [trimStr text] := by
  unfold splitIntoSentences splitIntoSentencesL
  rw [chunks_eq_nil_of_noTerm text.data h]
  by_cases ht : trimChars text.data = []
  · have hz : trimStr text = "" := by unfold trimStr; rw [ht]
    rw [if_pos hz]
    simp [List.filter, ht]
  · have hne : trimStr text ≠ "" := by
      unfold trimStr
      intro h'
      exact ht (by simpa using congrArg String.data h')
    rw [if_neg hne]
    unfold trimStr
    simp [List.filter, ht]

/-- Every sentence the segmenter returns is non-empty and already
trimmed. -/
theorem mem_split_trimmed (cs : List Char) :
    ∀ s ∈ splitIntoSentencesL cs, s ≠ [] ∧ trimChars s = s := by
  intro s hs
  unfold splitIntoSentencesL at hs
  rw [List.mem_filter] at hs
  obtain ⟨hmem, hne⟩ := hs
  rw [List.mem_map] at hmem
  obtain ⟨x, _, hx⟩ := hmem
  refine ⟨by simpa using hne, ?_⟩
  rw [← hx]
  exact trimChars_trimChars x

/-! ## Claims C3 and C6: segmenter behaviour -/

/-- C3 (counterexample): the input "Hello. World" contains exactly one
recognizable sentence terminator and trailing unterminated text, so the
claim requires N+1 = 2 sentences whose concatenation preserves the
content.  The code returns the single sentence "Hello." and drops
"World" entirely. -/
theorem claim_C3_counterexample :
    splitIntoSentences "Hello. World" = ["Hello."] ∧
    (splitIntoSentences "Hello. World").length ≠ 2 := by
  exact ⟨by decide, by decide⟩

/-- C3 (amended): every sentence the segmenter returns is trimmed and
non-empty; but when at least one regex match exists, trailing
unterminated text after the last terminator run is dropped rather than
returned as an extra sentence, so re-joining does not preserve content
and the count is the number of terminated chunks, not N or N+1. -/
theorem claim_C3_segmenter_amended (text : String) (cs ds : List Char)
    (hds : ∀ c ∈ ds, isTerm c = false) (hcs : chunks cs ≠ []) :
    (∀ s ∈ splitIntoSentences text, s ≠ "" ∧ trimStr s = s) ∧
    splitIntoSentencesL (cs ++ ds) = splitIntoSentencesL cs := by
  constructor
  · intro s hs
    unfold splitIntoSentences at hs
    rw [List.mem_map] at hs
    obtain ⟨l, hl, rfl⟩ := hs
    have hlt := mem_split_trimmed text.data l hl
    constructor
    · intro hemp
      exact hlt.1 (by simpa using congrArg String.data hemp)
    · unfold trimStr
      exact congrArg String.mk hlt.2
  · obtain ⟨m, ms, hm⟩ : ∃ m ms, chunks cs = m :: ms := by
      cases hc : chunks cs with
      | nil => exact absurd hc hcs
      | cons m ms => exact ⟨m, ms, rfl⟩
    unfold splitIntoSentencesL
    rw [chunks_append cs ds hds, hm]

/-- C3 (witness): the amended statement at the concrete inputs
"Hello. World", "Hi!" and " trailing". -/
theorem claim_C3_witness :
    (∀ s ∈ splitIntoSentences "Hello. World", s ≠ "" ∧ trimStr s = s) ∧
    splitIntoSentencesL ("Hi!".data ++ " trailing".data) =
      splitIntoSentencesL "Hi!".data :=
  claim_C3_segmenter_amended "Hello. World" "Hi!".data " trailing".data
    (by decide) (by decide)

/-- C6 (counterexample): the segmenter does split at `¿`: on "a¿b." it
returns two sentences with a boundary at `¿`, not the single sentence
the claim would require. -/
theorem claim_C6_counterexample :
    splitIntoSentences "a¿b." = ["a¿", "b."] ∧
    splitIntoSentences "a¿b." ≠ ["a¿b."] := by
  exact ⟨by decide, by decide⟩

/-- C6 (amended): the boundary set of the segmenter is exactly
`.!?؟؛۔¿` including `¿`: a split does occur at `¿` (witnessed on
"a¿b."), while any input free of those seven characters is never split
— it comes back whole (trimmed), or empty when blank. -/
theorem claim_C6_boundary_amended (text : String)
    (h : ∀ c ∈ text.data, isTerm c = false) :
    splitIntoSentences "a¿b." = ["a¿", "b."] ∧
    splitIntoSentences text = if trimStr text = "" then [] else [trimStr text] :=
  ⟨by decide, split_noTerm text h⟩

/-- C6 (witness): the amended statement at the terminator-free input
"abc def". -/
theorem claim_C6_witness :
    splitIntoSentences "a¿b." = ["a¿", "b."] ∧
    splitIntoSentences "abc def" =
      if trimStr "abc def" = "" then [] else [trimStr "abc def"] :=
  claim_C6_boundary_amended "abc def" (by decide)

/-! ## Translation client (`azure-client.ts`)

`translateText` builds the cache key `${fromLang}-${toLang}-${text}`,
returns a cached value on hit (falling back to the input when the
cached value is the empty string, via `|| text`), returns the input
unchanged when no demo password is configured, and otherwise calls
`translateWithAzureDirect`.  The direct call stores the result in the
cache (`Map.set`, which keeps insertion order on overwrite), then
deletes the oldest-inserted key when the size exceeds 100; any fetch or
HTTP failure is caught and the original text returned with the cache
untouched.  The cache is modelled as an insertion-ordered association
list, matching JavaScript `Map` iteration order. -/

/-- The translation cache: entries in insertion order. -/
abbrev Cache := List (String × String)

/-- The cache key template literal of `translateText`. -/
def cacheKey (fromLang toLang text : String) : String :=
  fromLang ++ "-" ++ toLang ++ "-" ++ text

/-- Model of `translationCache.has(key)`. -/
def cacheHas (c : Cache) (k : String) : Bool := c.any (fun p => p.1 == k)

/-- Model of `translationCache.get(key)`. -/
def cacheGet (c : Cache) (k : String) : Option String :=
  (c.find? (fun p => p.1 == k)).map (fun p => p.2)

/-- Model of `translationCache.set(key, v)`: overwriting keeps the
original insertion position, otherwise the entry is appended. -/
def cacheSet (c : Cache) (k v : String) : Cache :=
  if cacheHas c k then c.map (fun p => if p.1 == k then (p.1, v) else p)
  else c ++ [(k, v)]

/-- `maxCacheSize` from `azure-client.ts`. -/
def maxCacheSize : Nat := 100

/-- Model of the size-limit step: when the size exceeds `maxCacheSize`,
the oldest-inserted key (`keys().next().value`) is deleted. -/
def cacheEvict (c : Cache) : Cache :=
  if maxCacheSize < c.length then c.tail else c

/-- Outcome of the remote Azure Translator request: `ok` carries the
translation payload; `failure` covers network errors and non-ok HTTP
statuses, all of which reach the `catch` block. -/
inductive RemoteOutcome where
  | ok (translation : String)
  | failure
deriving DecidableEq

/-- Model of `translateWithAzureDirect` (the cache-relevant part):
on success the payload (or the input, when the payload is empty, via
`|| text`) is cached and the size limit enforced; on any failure the
original text is returned and the cache is untouched. -/
def translateWithAzureDirect (cache : Cache) (remote : RemoteOutcome)
    (text key : String) : String × Cache :=
  match remote with
  | .ok tr =>
    let translated := if tr = "" then text else tr
    (translated, cacheEvict (cacheSet cache key translated))
  | .failure => (text, cache)

/-- Model of `translateText`: result, updated cache, and whether the
remote endpoint was contacted.  `demoPassword = ""` models a falsy
(absent) demo password. -/
def translateText (demoPassword : String) (cache : Cache)
    (remote : RemoteOutcome) (text fromLang toLang : String) :
    String × Cache × Bool :=
  let key := cacheKey fromLang toLang text
  if cacheHas cache key then
    (match cacheGet cache key with
     | some v => if v = "" then text else v
     | none => text,
     cache, false)
  else if demoPassword = "" then (text, cache, false)
  else
    let r := translateWithAzureDirect cache remote text key
    (r.1, r.2, true)

/-! ## Claims C9 and C10: cache key collision, missing password -/

/-- C9 (confirmed): the dash-joined cache key is not injective: the
distinct triples ("a", "b-c", "x") and ("a-b", "c", "x") share the key
"a-b-c-x", so after the first call caches "RESULT1", the second call
returns "RESULT1" from the cache without contacting the remote service,
even though its own translation would have been "RESULT2". -/
theorem claim_C9_cache_key_collision :
    (("a" : String), ("b-c" : String), ("x" : String)) ≠ ("a-b", "c", "x") ∧
    cacheKey "a" "b-c" "x" = cacheKey "a-b" "c" "x" ∧
    (let r1 := translateText "pw" [] (RemoteOutcome.ok "RESULT1") "x" "a" "b-c"
     let r2 := translateText "pw" r1.2.1 (RemoteOutcome.ok "RESULT2") "x" "a-b" "c"
     r2.1 = "RESULT1" ∧ r2.2.2 = false) := by
  refine ⟨by decide, by decide, by decide, by decide⟩

/-- C10 (confirmed): on a cache miss with no demo password configured,
`translateText` returns the original text, contacts no remote service,
and leaves the cache unchanged. -/
theorem claim_C10_no_password_degrades (cache : Cache) (remote : RemoteOutcome)
    (text fromLang toLang : String)
    (hmiss : cacheHas cache (cacheKey fromLang toLang text) = false) :
    translateText "" cache remote text fromLang toLang = (text, cache, false) := by
  unfold translateText
  simp [hmiss]

/-- C10 (witness): the theorem at the concrete input ("hola", en→es)
with an empty cache. -/
theorem claim_C10_witness :
    cacheHas [] (cacheKey "en" "es" "hola") = false ∧
    translateText "" [] (RemoteOutcome.ok "X") "hola" "en" "es" = ("hola", [], false) :=
  ⟨by decide,
   claim_C10_no_password_degrades [] (RemoteOutcome.ok "X") "hola" "en" "es" (by decide)⟩

/-! ## Claim C5: FIFO eviction over 101 insertions -/

/-- One translate call that succeeds remotely: its inputs and the
translation the remote service returns. -/
structure TransCall where
  text : String
  fromLang : String
  toLang : String
  result : String
deriving DecidableEq

/-- The cache key a call uses. -/
def TransCall.key (c : TransCall) : String := cacheKey c.fromLang c.toLang c.text

/-- Run a sequence of `translateText` calls, each with a successful
remote outcome, threading the cache. -/
def runTranslations (pw : String) (cache : Cache) : List TransCall → Cache
  | [] => cache
  | c :: rest =>
    runTranslations pw
      (translateText pw cache (RemoteOutcome.ok c.result) c.text c.fromLang c.toLang).2.1
      rest

/-- `cacheHas` decides membership among the stored keys. -/
theorem cacheHas_iff (c : Cache) (k : String) :
    cacheHas c k = true ↔ k ∈ c.map Prod.fst := by
  unfold cacheHas
  rw [List.any_eq_true, List.mem_map]
  constructor
  · rintro ⟨p, hp, he⟩
    exact ⟨p, hp, by simpa using he⟩
  · rintro ⟨p, hp, he⟩
    exact ⟨p, hp, by simp [he]⟩

/-- A `translateText` call on a fresh key with a password and a
successful remote outcome appends the new entry and enforces the size
limit. -/
theorem translateText_fresh (pw cache r text fromLang toLang)
    (hpw : pw ≠ "")
    (hmiss : cacheHas cache (cacheKey fromLang toLang text) = false) :
    (translateText pw cache (RemoteOutcome.ok r) text fromLang toLang).2.1 =
      cacheEvict (cache ++
        [(cacheKey fromLang toLang text, if r = "" then text else r)]) := by
  unfold translateText translateWithAzureDirect cacheSet
  simp [hmiss, hpw]

/-- Running successful translate calls whose keys are all fresh and
pairwise distinct: the stored keys are the last `maxCacheSize` of the
initial keys followed by the call keys, in order (FIFO eviction). -/
theorem runTranslations_keys (pw : String) (hpw : pw ≠ "") :
    ∀ (calls : List TransCall) (cache : Cache),
      (cache.map Prod.fst ++ calls.map TransCall.key).Nodup →
      cache.length ≤ maxCacheSize →
      (runTranslations pw cache calls).map Prod.fst =
        (cache.map Prod.fst ++ calls.map TransCall.key).drop
          (cache.length + calls.length - maxCacheSize) := by
  intro calls
  induction calls with
  | nil =>
    intro cache _ hlen
    simp only [runTranslations, List.map_nil, List.append_nil, List.length_nil,
      Nat.add_zero]
    have h0 : cache.length - maxCacheSize = 0 := by omega
    rw [h0, List.drop_zero]
  | cons c rest ih =>
    intro cache hnod hlen
    have hnodc : (cache.map Prod.fst ++ (c.key :: rest.map TransCall.key)).Nodup := by
      simpa using hnod
    have hfresh : cacheHas cache c.key = false := by
      rw [Bool.eq_false_iff]
      intro habs
      rw [cacheHas_iff] at habs
      exact (List.disjoint_of_nodup_append hnodc) habs (List.mem_cons_self _ _)
    have hkey : cacheKey c.fromLang c.toLang c.text = c.key := rfl
    simp only [runTranslations]
    rw [translateText_fresh pw cache c.result c.text c.fromLang c.toLang hpw hfresh,
      hkey]
    unfold cacheEvict
    by_cases hq : cache.length = maxCacheSize
    · have hcond : maxCacheSize <
          (cache ++ [(c.key, if c.result = "" then c.text else c.result)]).length := by
        simp [hq]
      rw [if_pos hcond]
      cases cache with
      | nil => exact absurd hq (by decide)
      | cons p cache' =>
        have htail : ((p :: cache') ++
            [(c.key, if c.result = "" then c.text else c.result)]).tail =
            cache' ++ [(c.key, if c.result = "" then c.text else c.result)] := rfl
        rw [htail]
        have htl : (cache'.map Prod.fst ++
            (c.key :: rest.map TransCall.key)).Nodup := by
          have h' : (p.1 :: (cache'.map Prod.fst ++
              (c.key :: rest.map TransCall.key))).Nodup := by
            simpa only [List.map_cons, List.cons_append] using hnodc
          exact h'.of_cons
        have hnod' : ((cache' ++
            [(c.key, if c.result = "" then c.text else c.result)]).map Prod.fst ++
            rest.map TransCall.key).Nodup := by
          simpa only [List.map_append, List.map_cons, List.map_nil,
            List.append_assoc, List.singleton_append] using htl
        have hq' : cache'.length + 1 = maxCacheSize := by simpa using hq
        have IH := ih (cache' ++
          [(c.key, if c.result = "" then c.text else c.result)]) hnod'
          (by simp only [List.length_append, List.length_singleton]; omega)
        rw [IH]
        have h1 : (cache' ++
            [(c.key, if c.result = "" then c.text else c.result)]).length +
            rest.length - maxCacheSize = rest.length := by
          simp only [List.length_append, List.length_singleton]
          omega
        have h2 : (p :: cache').length + (c :: rest).length - maxCacheSize =
            rest.length + 1 := by
          simp only [List.length_cons]
          omega
        rw [h1, h2]
        simp [List.map_append, List.append_assoc]
    · have hcond : ¬ (maxCacheSize <
          (cache ++ [(c.key, if c.result = "" then c.text else c.result)]).length) := by
        simp only [List.length_append, List.length_singleton]
        omega
      rw [if_neg hcond]
      have hnod' : ((cache ++
          [(c.key, if c.result = "" then c.text else c.result)]).map Prod.fst ++
          rest.map TransCall.key).Nodup := by
        simpa only [List.map_append, List.map_cons, List.map_nil,
          List.append_assoc, List.singleton_append] using hnodc
      have IH := ih (cache ++
        [(c.key, if c.result = "" then c.text else c.result)]) hnod'
        (by simp only [List.length_append, List.length_singleton]; omega)
      rw [IH]
      have h3 : (cache ++
          [(c.key, if c.result = "" then c.text else c.result)]).length +
          rest.length - maxCacheSize =
          cache.length + (c :: rest).length - maxCacheSize := by
        simp only [List.length_append, List.length_cons, List.length_nil]
        omega
      rw [h3]
      simp [List.map_append, List.append_assoc]

/-- After any run of fresh-key successful translate calls starting from
an empty cache, the cache holds at most `maxCacheSize` entries. -/
theorem runTranslations_length_le (pw : String) (hpw : pw ≠ "")
    (calls : List TransCall) (hnod : (calls.map TransCall.key).Nodup) :
    (runTranslations pw [] calls).length ≤ maxCacheSize := by
  have hkeys := runTranslations_keys pw hpw calls [] (by simpa using hnod)
    (by simp)
  have h1 : (runTranslations pw [] calls).length =
      ((runTranslations pw [] calls).map Prod.fst).length :=
    (List.length_map _ _).symm
  rw [hkeys, List.length_drop] at h1
  rw [h1]
  simp only [List.map_nil, List.nil_append, List.length_nil, List.length_map,
    Nat.zero_add]
  omega

/-- C5 (confirmed): 101 insertions (cache-miss translate calls, i.e.
calls with pairwise-distinct cache keys, each remotely successful) into
the empty 100-capacity cache evict the first-inserted entry: a lookup
for the first call's key afterwards is a miss, the final cache holds
exactly 100 entries, and no prefix of the run ever leaves more than 100
entries in the cache. -/
theorem claim_C5_fifo_eviction (pw : String) (c0 : TransCall)
    (rest : List TransCall) (hpw : pw ≠ "")
    (hlen : (c0 :: rest).length = 101)
    (hnod : ((c0 :: rest).map TransCall.key).Nodup) :
    cacheHas (runTranslations pw [] (c0 :: rest)) c0.key = false ∧
    (runTranslations pw [] (c0 :: rest)).length = maxCacheSize ∧
    ∀ n, (runTranslations pw [] ((c0 :: rest).take n)).length ≤ maxCacheSize := by
  have hkeys := runTranslations_keys pw hpw (c0 :: rest) [] (by simpa using hnod)
    (by simp)
  simp only [List.map_nil, List.nil_append, List.length_nil, Nat.zero_add,
    List.map_cons, hlen] at hkeys
  have h101 : 101 - maxCacheSize = 1 := by decide
  rw [h101, List.drop_succ_cons, List.drop_zero] at hkeys
  have hrest : rest.length = 100 := by simpa using hlen
  refine ⟨?_, ?_, ?_⟩
  · rw [Bool.eq_false_iff]
    intro habs
    rw [cacheHas_iff, hkeys] at habs
    exact (List.nodup_cons.mp (by simpa using hnod)).1 habs
  · have h1 : (runTranslations pw [] (c0 :: rest)).length =
        ((runTranslations pw [] (c0 :: rest)).map Prod.fst).length :=
      (List.length_map _ _).symm
    rw [hkeys, List.length_map, hrest] at h1
    exact h1
  · intro n
    apply runTranslations_length_le pw hpw
    rw [List.map_take]
    exact List.Nodup.sublist (List.take_sublist n _) hnod

/-- The first of the 101 concrete calls used to witness C5. -/
def c5head : TransCall := ⟨"t0", "en", "es", "r"⟩

/-- The remaining 100 concrete calls used to witness C5, all with
pairwise-distinct texts and hence pairwise-distinct cache keys. -/
def c5rest : List TransCall :=
  (List.range 100).map (fun i => ⟨"u" ++ Nat.repr i, "en", "es", "r"⟩)

/-- C5 (witness): the theorem at 101 concrete distinct-key calls. -/
theorem claim_C5_witness :
    cacheHas (runTranslations "pw" [] (c5head :: c5rest)) c5head.key = false ∧
    (runTranslations "pw" [] (c5head :: c5rest)).length = maxCacheSize ∧
    ∀ n, (runTranslations "pw" [] ((c5head :: c5rest).take n)).length ≤
      maxCacheSize :=
  claim_C5_fifo_eviction "pw" c5head c5rest (by decide) (by decide) (by decide)

/-! ## Playback controller (`toolbar.ts`)

State fields of the toolbar relevant to reading: the three flags
`isTranslating` / `isReading` / `isPaused`, the sentence list and the
cursor `currentSentenceIndex`, plus the cached original and translated
texts used by resume.  `readText` runs: guard on empty text, mutex on
`isTranslating`, stop of a previous session, flag setting, an abort
check, translation (only when the user language is not "en"; only that
branch fills the caches), a second abort check, then the sentence loop
`speakFromCurrentPosition`; a `finally` clears `isReading` and
`isTranslating`.  The loop checks `signal.aborted || isPaused` before
each sentence, speaks `remainingSentences[i]` awaiting full playback,
sets the cursor to `globalIndex + 1`, sleeps 400ms and re-checks; a
stop/pause rejection is rethrown without touching the cursor, and any
other speech error is swallowed with the cursor set to
`globalIndex + 1`.  Note `globalIndex = this.currentSentenceIndex + i`
is recomputed each iteration from the field the previous iteration
mutated, so the persisted cursor drifts ahead of the spoken sentence's
true index.  What each iteration observes at its suspension points is
modelled by an `IterEvent` per iteration; environment outcomes are
explicit parameters, so every run of the model is one admissible
interleaving of the source. -/

/-- Observable effects of a run: calls into the translation client and
fully played sentences. -/
inductive Eff where
  | translated (text : String)
  | spoke (s : String)
deriving DecidableEq

/-- What one iteration of the sentence loop observes at its suspension
points: `pauseBefore` - the loop-head check sees abort/pause;
`ok` - the sentence plays fully with no interruption; `okPausedAfter` -
the sentence plays, then the post-gap check sees abort/pause;
`speakAborted` - audio completes but the abort check inside
`speakSentenceWithPlaybackWait` rejects; `speakStopped` - the speech
call itself rejects with a stop/pause error during playback;
`speakFailed` - the speech call fails with any other error, which the
loop swallows while advancing the cursor. -/
inductive IterEvent where
  | pauseBefore
  | ok
  | okPausedAfter
  | speakAborted
  | speakStopped
  | speakFailed
deriving DecidableEq

/-- The toolbar state relevant to the playback controller. -/
structure Controller where
  isTranslating : Bool
  isReading : Bool
  isPaused : Bool
  translationSentences : List String
  currentSentenceIndex : Nat
  cachedTranslation : Option String
  cachedOriginalText : Option String
deriving DecidableEq

/-- The toolbar's initial state. -/
def initController : Controller :=
  { isTranslating := false, isReading := false, isPaused := false,
    translationSentences := [], currentSentenceIndex := 0,
    cachedTranslation := none, cachedOriginalText := none }

/-- The `for` loop of `speakFromCurrentPosition`: `rem` is the slice
`remainingSentences` taken once at entry, `cur` the value of the field
`currentSentenceIndex` at the head of the current iteration, `i` the
loop counter, `ev i` what iteration `i` observes.  Each iteration
recomputes `globalIndex = this.currentSentenceIndex + i` — re-reading
the field that the previous iteration mutated to `globalIndex + 1` —
so the persisted cursor drifts ahead of the index of the sentence
actually spoken (`remainingSentences[i]`): from cursor 0 the successive
`globalIndex` values are 0, 2, 5, 9, ....  The loop-head pause check
persists `globalIndex`; a success persists `globalIndex + 1` (also in
the swallowing catch); a stop/pause rejection rethrows with the field
untouched (still `cur`).  Returns the final `currentSentenceIndex`, the
effects, and whether the loop threw (pause/stop).  Natural completion
resets the cursor to 0. -/
def speakLoopGo : List String → Nat → (Nat → IterEvent) → Nat →
    Nat × List Eff × Bool
  | [], _, _, _ => (0, [], false)
  | s :: rest, cur, ev, i =>
    let g := cur + i
    match ev i with
    | .pauseBefore => (g, [], true)
    | .speakAborted => (cur, [Eff.spoke s], true)
    | .speakStopped => (cur, [], true)
    | .okPausedAfter => (g + 1, [Eff.spoke s], true)
    | .speakFailed => speakLoopGo rest (g + 1) ev (i + 1)
    | .ok =>
      let r := speakLoopGo rest (g + 1) ev (i + 1)
      (r.1, Eff.spoke s :: r.2.1, r.2.2)

/-- Model of `speakFromCurrentPosition`: early return on an empty
remainder (cursor untouched), otherwise the loop runs and the cursor is
set to what the loop persisted (0 on natural completion). -/
def speakFromCurrentPosition (c : Controller) (ev : Nat → IterEvent) :
    Controller × List Eff × Bool :=
  match c.translationSentences.drop c.currentSentenceIndex with
  | [] => (c, [], false)
  | s :: rest =>
    let r := speakLoopGo (s :: rest) c.currentSentenceIndex ev 0
    ({ c with currentSentenceIndex := r.1 }, r.2.1, r.2.2)

/-- Model of `stopReading`: clears every session field. -/
def stopReading (_ : Controller) : Controller :=
  { isTranslating := false, isReading := false, isPaused := false,
    translationSentences := [], currentSentenceIndex := 0,
    cachedTranslation := none, cachedOriginalText := none }

/-- Model of `pauseReading`: flips the flags, leaves the cursor, the
sentences and the caches alone. -/
def pauseReading (c : Controller) : Controller :=
  { c with isReading := false, isPaused := true, isTranslating := false }

/-- JavaScript falsiness of the cached translation (`null` or `""`). -/
def jsFalsy : Option String → Bool
  | none => true
  | some s => s == ""

/-- Model of `resumeReading`: returns immediately when no cached
translation exists or the sentence list is empty; otherwise sets the
flags, re-runs the sentence loop from the stored cursor, and clears the
flags.  It never touches the translation client. -/
def resumeReading (c : Controller) (ev : Nat → IterEvent) :
    Controller × List Eff :=
  if jsFalsy c.cachedTranslation || c.translationSentences.isEmpty then (c, [])
  else
    let c1 := { c with isReading := true, isPaused := false,
                       isTranslating := true }
    let r := speakFromCurrentPosition c1 ev
    ({ r.1 with isReading := false, isTranslating := false }, r.2.1)

/-- The synchronous part of `readText` up to the first `await`: the
empty-text guard, the `isTranslating` mutex (second component `false`
means the call returned without starting a session), stopping a
previous session, and setting the flags. -/
def readTextPhase1 (c : Controller) (text : String) : Controller × Bool :=
  if text.length = 0 then (c, false)
  else if c.isTranslating then (c, false)
  else
    let c1 := if c.isReading || c.isPaused then stopReading c else c
    ({ c1 with isTranslating := true, isReading := true, isPaused := false },
     true)

/-- The rest of `readText` after the mutex was passed: abort check,
translation (the non-"en" branch fills the caches and calls the
translation client), second abort check, sentence loop, and the
`finally` clearing the flags. -/
def readTextFinish (userLanguage pw : String) (remote : RemoteOutcome)
    (aborted1 aborted2 : Bool) (ev : Nat → IterEvent) (cache : Cache)
    (c : Controller) (text : String) : Controller × Cache × List Eff :=
  if aborted1 then
    ({ c with isReading := false, isTranslating := false }, cache, [])
  else
    let step :=
      if userLanguage ≠ "en" then
        let tr := translateText pw cache remote text "en" userLanguage
        ({ c with cachedOriginalText := some text,
                  cachedTranslation := some tr.1,
                  translationSentences := splitIntoSentences tr.1,
                  currentSentenceIndex := 0 },
         tr.2.1, [Eff.translated text])
      else
        ({ c with translationSentences := splitIntoSentences text,
                  currentSentenceIndex := 0 }, cache, ([] : List Eff))
    if aborted2 then
      ({ step.1 with isReading := false, isTranslating := false },
       step.2.1, step.2.2)
    else
      let r := speakFromCurrentPosition step.1 ev
      ({ r.1 with isReading := false, isTranslating := false },
       step.2.1, step.2.2 ++ r.2.1)

/-- Model of `readText`. -/
def readText (userLanguage pw : String) (remote : RemoteOutcome)
    (aborted1 aborted2 : Bool) (ev : Nat → IterEvent) (cache : Cache)
    (c : Controller) (text : String) : Controller × Cache × List Eff :=
  let p := readTextPhase1 c text
  if p.2 then
    readTextFinish userLanguage pw remote aborted1 aborted2 ev cache p.1 text
  else (p.1, cache, [])

/-- The event schedule in which nothing interrupts any iteration. -/
def evAllOk : Nat → IterEvent := fun _ => IterEvent.ok

/-- The sentences actually spoken, in order, within an effect log. -/
def spokenTexts (effs : List Eff) : List String :=
  effs.filterMap (fun e => match e with | .spoke s => some s | _ => none)

/-! ## Loop lemmas -/

/-- With no interruption the loop speaks every remaining sentence in
order, resets the cursor to 0 and does not throw. -/
theorem speakLoopGo_allOk : ∀ (rem : List String) (cur i : Nat),
    speakLoopGo rem cur evAllOk i = (0, rem.map Eff.spoke, false) := by
  intro rem
  induction rem with
  | nil => intro cur i; rfl
  | cons s rest ih =>
    intro cur i
    simp only [speakLoopGo, evAllOk, ih (cur + i + 1) (i + 1), List.map_cons]

/-- `spokenTexts` splits over append. -/
theorem spokenTexts_append (xs ys : List Eff) :
    spokenTexts (xs ++ ys) = spokenTexts xs ++ spokenTexts ys := by
  unfold spokenTexts
  exact List.filterMap_append xs ys _

/-- `spokenTexts` recovers the sentences from a pure speech log. -/
theorem spokenTexts_map_spoke (l : List String) :
    spokenTexts (l.map Eff.spoke) = l := by
  induction l with
  | nil => rfl
  | cons s rest ih => simp only [List.map_cons, spokenTexts, List.filterMap_cons]; simpa [spokenTexts] using ih

/-- With no interruption `speakFromCurrentPosition` speaks exactly the
sentences from the cursor on. -/
theorem speakFromCurrentPosition_allOk (c : Controller) :
    (speakFromCurrentPosition c evAllOk).2.1 =
      (c.translationSentences.drop c.currentSentenceIndex).map Eff.spoke := by
  unfold speakFromCurrentPosition
  cases hd : c.translationSentences.drop c.currentSentenceIndex with
  | nil => simp
  | cons s rest => simp [speakLoopGo_allOk]

/-! ## Claims C1, C2, C4: readText / pause / resume behaviour -/

/-- A non-empty string has a non-zero length. -/
theorem length_ne_zero_of_ne_empty (s : String) (h : s ≠ "") : ¬ s.length = 0 := by
  intro h0
  apply h
  have hdata : s.data = [] := List.length_eq_zero.mp h0
  cases s with
  | mk data => cases hdata; rfl

/-- C1 (amended): when `readText(b)` arrives while `readText(a)` is
still translating, the `isTranslating` mutex makes the second call
return immediately with no effect; `a`'s translation then does start
playback, so the text ultimately read is `a`'s translation, not `b`. -/
theorem claim_C1_mutex_amended (lang pw a b : String) (remote : RemoteOutcome)
    (cache : Cache) (c : Controller)
    (hT : c.isTranslating = false) (hR : c.isReading = false)
    (hP : c.isPaused = false) (ha : a ≠ "") (hb : b ≠ "")
    (hlang : lang ≠ "en") :
    (readTextPhase1 c a).2 = true ∧
    readText lang pw remote false false evAllOk cache (readTextPhase1 c a).1 b =
      ((readTextPhase1 c a).1, cache, []) ∧
    spokenTexts (readTextFinish lang pw remote false false evAllOk cache
        (readTextPhase1 c a).1 a).2.2 =
      splitIntoSentences (translateText pw cache remote a "en" lang).1 := by
  have ha' : ¬ a.length = 0 := length_ne_zero_of_ne_empty a ha
  have hb' : ¬ b.length = 0 := length_ne_zero_of_ne_empty b hb
  have hp : readTextPhase1 c a =
      ({ c with isTranslating := true, isReading := true, isPaused := false },
       true) := by
    unfold readTextPhase1
    rw [if_neg ha', if_neg (by simp [hT]), if_neg (by simp [hR, hP])]
  refine ⟨by rw [hp], ?_, ?_⟩
  · rw [hp]
    unfold readText readTextPhase1
    simp [hb']
  · rw [hp]
    unfold readTextFinish
    simp [hlang, spokenTexts_append, speakFromCurrentPosition_allOk,
      spokenTexts_map_spoke,
      show ∀ t effs, spokenTexts (Eff.translated t :: effs) = spokenTexts effs
        from fun _ _ => rfl]

/-- C1 (witness): the amended statement at the concrete trace
readText("Hello.") then readText("Bye.") during translation to Spanish. -/
theorem claim_C1_witness :
    (readTextPhase1 initController "Hello.").2 = true ∧
    readText "es" "pw" (RemoteOutcome.ok "HOLA.") false false evAllOk []
        (readTextPhase1 initController "Hello.").1 "Bye." =
      ((readTextPhase1 initController "Hello.").1, [], []) ∧
    spokenTexts (readTextFinish "es" "pw" (RemoteOutcome.ok "HOLA.") false false
        evAllOk [] (readTextPhase1 initController "Hello.").1 "Hello.").2.2 =
      splitIntoSentences
        (translateText "pw" [] (RemoteOutcome.ok "HOLA.") "Hello." "en" "es").1 :=
  claim_C1_mutex_amended "es" "pw" "Hello." "Bye." (RemoteOutcome.ok "HOLA.") []
    initController rfl rfl rfl (by decide) (by decide) (by decide)

/-- C1 (counterexample): in the trace readText("Hello.") followed,
while the translation is in flight, by readText("Bye."), the second
call speaks nothing and the first call's translation "HOLA." is what is
ultimately read: the claim that "B" is the only text read is false —
"A" wins, not "B". -/
theorem claim_C1_counterexample :
    spokenTexts (readText "es" "pw" (RemoteOutcome.ok "HOLA.") false false
        evAllOk [] (readTextPhase1 initController "Hello.").1 "Bye.").2.2 = [] ∧
    spokenTexts (readTextFinish "es" "pw" (RemoteOutcome.ok "HOLA.") false false
        evAllOk [] (readTextPhase1 initController "Hello.").1 "Hello.").2.2 =
      ["HOLA."] ∧
    (["HOLA."] : List String) ≠ ["Bye."] := by
  refine ⟨by decide, by decide, by decide⟩

/-- C2 (code bug): for an English session the `userLanguage !== 'en'`
branch of `readText` is skipped, so `cachedTranslation` is never set,
even though the `else` branch's own comment says it splits into
sentences "for pause/resume" and the user documentation promises that
resume continues from the same position.  After reading
"Hello. World.", pausing at the sentence boundary after sentence 0
leaves the cursor at 1 with "World." still unread, but `resumeReading`
returns immediately (its guard sees no cached translation): it speaks
nothing and changes nothing, instead of continuing with sentence 1. -/
theorem claim_C2_en_resume_noop :
    (pauseReading (readText "en" "pw" (RemoteOutcome.ok "X") false false
        (fun i => if i = 0 then IterEvent.okPausedAfter else IterEvent.ok) []
        initController "Hello. World.").1).currentSentenceIndex = 1 ∧
    (pauseReading (readText "en" "pw" (RemoteOutcome.ok "X") false false
        (fun i => if i = 0 then IterEvent.okPausedAfter else IterEvent.ok) []
        initController "Hello. World.").1).translationSentences =
      ["Hello.", "World."] ∧
    (pauseReading (readText "en" "pw" (RemoteOutcome.ok "X") false false
        (fun i => if i = 0 then IterEvent.okPausedAfter else IterEvent.ok) []
        initController "Hello. World.").1).cachedTranslation = none ∧
    (resumeReading (pauseReading (readText "en" "pw" (RemoteOutcome.ok "X")
        false false
        (fun i => if i = 0 then IterEvent.okPausedAfter else IterEvent.ok) []
        initController "Hello. World.").1) evAllOk).2 = [] ∧
    (resumeReading (pauseReading (readText "en" "pw" (RemoteOutcome.ok "X")
        false false
        (fun i => if i = 0 then IterEvent.okPausedAfter else IterEvent.ok) []
        initController "Hello. World.").1) evAllOk).1 =
      pauseReading (readText "en" "pw" (RemoteOutcome.ok "X") false false
        (fun i => if i = 0 then IterEvent.okPausedAfter else IterEvent.ok) []
        initController "Hello. World.").1 := by
  refine ⟨by decide, by decide, by decide, by decide, by decide⟩

/-- The sentence loop never changes the sentence list. -/
theorem speakFromCurrentPosition_sentences (c : Controller) (ev : Nat → IterEvent) :
    (speakFromCurrentPosition c ev).1.translationSentences =
      c.translationSentences := by
  unfold speakFromCurrentPosition
  cases c.translationSentences.drop c.currentSentenceIndex <;> simp

/-- The sentence loop never changes the cached translation. -/
theorem speakFromCurrentPosition_cachedTranslation (c : Controller)
    (ev : Nat → IterEvent) :
    (speakFromCurrentPosition c ev).1.cachedTranslation = c.cachedTranslation := by
  unfold speakFromCurrentPosition
  cases c.translationSentences.drop c.currentSentenceIndex <;> simp

/-- C4 (confirmed): when the remote translation call fails,
`translateText` catches the failure and returns the original text (no
exception reaches `readText`, which is modelled total), and `readText`
still proceeds to the reading phase: with an undisturbed schedule it
speaks exactly the sentences of the original text, caches the original
text as the translation, and leaves the translation cache unchanged. -/
theorem claim_C4_translate_failure_degrades (lang pw a : String) (cache : Cache)
    (c : Controller)
    (hT : c.isTranslating = false) (hR : c.isReading = false)
    (hP : c.isPaused = false) (ha : a ≠ "") (hlang : lang ≠ "en")
    (hpw : pw ≠ "") (hmiss : cacheHas cache (cacheKey "en" lang a) = false) :
    translateText pw cache RemoteOutcome.failure a "en" lang = (a, cache, true) ∧
    spokenTexts (readText lang pw RemoteOutcome.failure false false evAllOk
        cache c a).2.2 = splitIntoSentences a ∧
    (readText lang pw RemoteOutcome.failure false false evAllOk
        cache c a).1.cachedTranslation = some a ∧
    (readText lang pw RemoteOutcome.failure false false evAllOk
        cache c a).2.1 = cache := by
  have htr : translateText pw cache RemoteOutcome.failure a "en" lang =
      (a, cache, true) := by
    unfold translateText translateWithAzureDirect
    simp [hmiss, hpw]
  have ha' : ¬ a.length = 0 := length_ne_zero_of_ne_empty a ha
  have hp : readTextPhase1 c a =
      ({ c with isTranslating := true, isReading := true, isPaused := false },
       true) := by
    unfold readTextPhase1
    rw [if_neg ha', if_neg (by simp [hT]), if_neg (by simp [hR, hP])]
  refine ⟨htr, ?_, ?_, ?_⟩
  · unfold readText
    rw [hp]
    unfold readTextFinish
    simp [hlang, htr, spokenTexts_append, speakFromCurrentPosition_allOk,
      spokenTexts_map_spoke,
      show ∀ t effs, spokenTexts (Eff.translated t :: effs) = spokenTexts effs
        from fun _ _ => rfl]
  · unfold readText
    rw [hp]
    unfold readTextFinish
    simp [hlang, htr, speakFromCurrentPosition_cachedTranslation]
  · unfold readText
    rw [hp]
    unfold readTextFinish
    simp [hlang, htr]

/-- C4 (witness): the theorem at the concrete failing translation of
"Hello. World." to Farsi. -/
theorem claim_C4_witness :
    translateText "pw" [] RemoteOutcome.failure "Hello. World." "en" "fa" =
      ("Hello. World.", [], true) ∧
    spokenTexts (readText "fa" "pw" RemoteOutcome.failure false false evAllOk
        [] initController "Hello. World.").2.2 =
      splitIntoSentences "Hello. World." ∧
    (readText "fa" "pw" RemoteOutcome.failure false false evAllOk
        [] initController "Hello. World.").1.cachedTranslation =
      some "Hello. World." ∧
    (readText "fa" "pw" RemoteOutcome.failure false false evAllOk
        [] initController "Hello. World.").2.1 = [] :=
  claim_C4_translate_failure_degrades "fa" "pw" "Hello. World." [] initController
    rfl rfl rfl (by decide) (by decide) (by decide) (by decide)

/-! ## Claim C8: cursor invariant -/

/-- The states the playback controller can reach through its public
operations, each run under an arbitrary environment (event schedule,
remote outcome, abort observations). -/
inductive Reachable : Controller → Prop where
  | init : Reachable initController
  | readStep (lang pw : String) (remote : RemoteOutcome) (a1 a2 : Bool)
      (ev : Nat → IterEvent) (cache : Cache) (text : String) {c : Controller} :
      Reachable c →
      Reachable (readText lang pw remote a1 a2 ev cache c text).1
  | pauseStep {c : Controller} : Reachable c → Reachable (pauseReading c)
  | resumeStep (ev : Nat → IterEvent) {c : Controller} :
      Reachable c → Reachable (resumeReading c ev).1
  | stopStep {c : Controller} : Reachable c → Reachable (stopReading c)

/-- C8 (code bug): the cursor invariant
`0 ≤ currentSentenceIndex ≤ length translationSentences` is violated in
a reachable state.  Each loop iteration recomputes
`globalIndex = this.currentSentenceIndex + i` from the field the
previous iteration set to `globalIndex + 1`, so the persisted cursor
drifts ahead of the true sentence index: reading the two-sentence
text "Hi. Yo." and observing a pause during the inter-sentence gap
after the second sentence persists cursor 3 (iteration 1 reads the
field as 1, computes globalIndex 1 + 1 = 2 and stores 2 + 1 = 3) in a
paused state whose sentence list has length 2.  The loop's own log
format ("sentence globalIndex + 1 of length") and the documented
resume-from-position behaviour presuppose the in-bounds index
start + i, so the claimed invariant states the intent and the code's
arithmetic is a slip. -/
theorem claim_C8_cursor_drift :
    Reachable (pauseReading (readText "en" "pw" (RemoteOutcome.ok "X") false
      false (fun i => if i = 1 then IterEvent.okPausedAfter else IterEvent.ok)
      [] initController "Hi. Yo.").1) ∧
    (pauseReading (readText "en" "pw" (RemoteOutcome.ok "X") false false
      (fun i => if i = 1 then IterEvent.okPausedAfter else IterEvent.ok)
      [] initController "Hi. Yo.").1).translationSentences = ["Hi.", "Yo."] ∧
    (pauseReading (readText "en" "pw" (RemoteOutcome.ok "X") false false
      (fun i => if i = 1 then IterEvent.okPausedAfter else IterEvent.ok)
      [] initController "Hi. Yo.").1).currentSentenceIndex = 3 ∧
    ¬ ((pauseReading (readText "en" "pw" (RemoteOutcome.ok "X") false false
      (fun i => if i = 1 then IterEvent.okPausedAfter else IterEvent.ok)
      [] initController "Hi. Yo.").1).currentSentenceIndex ≤
      (pauseReading (readText "en" "pw" (RemoteOutcome.ok "X") false false
      (fun i => if i = 1 then IterEvent.okPausedAfter else IterEvent.ok)
      [] initController "Hi. Yo.").1).translationSentences.length) :=
  ⟨Reachable.pauseStep (Reachable.readStep "en" "pw" (RemoteOutcome.ok "X")
      false false
      (fun i => if i = 1 then IterEvent.okPausedAfter else IterEvent.ok)
      [] "Hi. Yo." Reachable.init),
   by decide, by decide, by decide⟩

/-! ## Claim C7: the 1500-character limit -/

/-- `MAX_CHARS` from `handleTextSelection` in `toolbar.ts`. -/
def MAX_CHARS : Nat := 1500

/-- Model of the text-delivery part of `handleTextSelection`: the page
selection is trimmed; an empty result is ignored; a result longer than
`MAX_CHARS` is truncated (`substring(0, MAX_CHARS)`) and a warning is
shown (the Bool); otherwise it is delivered unchanged. -/
def handleTextSelection (sel : String) : Option (String × Bool) :=
  let t := trimStr sel
  if t = "" then none
  else if MAX_CHARS < t.length then
    some (String.mk (t.data.take MAX_CHARS), true)
  else some (t, false)

/-- Model of the manual text box handlers (Enter and paste in
`attachEventListeners`): the input is trimmed and delivered as
`selectedText` with no length limit and no warning. -/
def manualTextInput (input : String) : Option String :=
  let t := trimStr input
  if t = "" then none else some t

/-- C7 (amended): only the page-selection path enforces the limit — it
delivers at most `MAX_CHARS` characters, warns exactly when the trimmed
selection exceeds the limit, and then delivers the truncation; the
manual text box path delivers the trimmed input unchanged, whatever its
length, with no truncation and no warning. -/
theorem claim_C7_limit_amended (sel input t u : String) (w : Bool)
    (hsel : handleTextSelection sel = some (t, w))
    (hinp : manualTextInput input = some u) :
    (t.length ≤ MAX_CHARS ∧
     (w = true ↔ MAX_CHARS < (trimStr sel).length) ∧
     (MAX_CHARS < (trimStr sel).length →
       t = String.mk ((trimStr sel).data.take MAX_CHARS))) ∧
    u = trimStr input := by
  constructor
  · unfold handleTextSelection at hsel
    by_cases h0 : trimStr sel = ""
    · simp [h0] at hsel
    · rw [if_neg h0] at hsel
      by_cases h1 : MAX_CHARS < (trimStr sel).length
      · rw [if_pos h1, Option.some.injEq, Prod.mk.injEq] at hsel
        obtain ⟨ht, hw⟩ := hsel
        refine ⟨?_, ⟨fun _ => h1, fun _ => hw.symm⟩, fun _ => ht.symm⟩
        rw [← ht]
        simp only [String.length, List.length_take]
        omega
      · rw [if_neg h1, Option.some.injEq, Prod.mk.injEq] at hsel
        obtain ⟨ht, hw⟩ := hsel
        refine ⟨?_, ⟨?_, fun hlt => absurd hlt h1⟩, fun hlt => absurd hlt h1⟩
        · rw [← ht]
          omega
        · intro hwt
          rw [← hw] at hwt
          exact absurd hwt (by decide)
  · unfold manualTextInput at hinp
    by_cases h0 : trimStr input = ""
    · simp [h0] at hinp
    · rw [if_neg h0] at hinp
      exact (Option.some.inj hinp).symm

/-- C7 (witness): the amended statement at the short selection "hi."
and the manual input " x ". -/
theorem claim_C7_witness :
    ((("hi." : String).length ≤ MAX_CHARS ∧
      (false = true ↔ MAX_CHARS < (trimStr "hi.").length) ∧
      (MAX_CHARS < (trimStr "hi.").length →
        ("hi." : String) = String.mk ((trimStr "hi.").data.take MAX_CHARS))) ∧
     ("x" : String) = trimStr " x ") :=
  claim_C7_limit_amended "hi." " x " "hi." "x" false (by decide) (by decide)

/-- A 1501-character input. -/
def longA : String := String.mk (List.replicate 1501 'a')

/-- C7 (counterexample): the manual text box path delivers this
1501-character input untruncated and unwarned, violating the claimed
1500-character bound on every user input path. -/
theorem claim_C7_counterexample :
    manualTextInput longA = some longA ∧
    longA.length = 1501 ∧ ¬ longA.length ≤ MAX_CHARS := by
  have hhead : ∀ c t, List.replicate 1501 'a' = c :: t → isWS c = false := by
    intro c t h
    rw [List.replicate_succ] at h
    cases h
    decide
  have htrim : trimChars longA.data = longA.data := by
    show trimChars (List.replicate 1501 'a') = _
    unfold trimChars trimR trimL
    rw [dropWhile_eq_self_of_head isWS _ hhead, List.reverse_replicate,
      dropWhile_eq_self_of_head isWS _ hhead, List.reverse_replicate]
    rfl
  have htrimS : trimStr longA = longA := by
    unfold trimStr
    rw [htrim]
  have hlen : longA.length = 1501 := by
    show (List.replicate 1501 'a').length = 1501
    rw [List.length_replicate]
  have hne : longA ≠ "" := by
    intro h
    have := congrArg String.length h
    rw [hlen] at this
    exact absurd this (by decide)
  refine ⟨?_, hlen, ?_⟩
  · unfold manualTextInput
    rw [htrimS, if_neg hne]
  · rw [hlen]
    decide
